import Mathlib

/-!
# Verification of the `website/producer.py` publish/fan-out primitive

Shallow embedding of the producer registry (`ProducerBase`), the concrete
queue producer (`SimpleQueueProducer`) and the worker thread (`NewsProducer`)
from `src/website/producer.py`, together with theorems settling the frozen
claims about the natural-language specification.

Modelling conventions:
* Items are opaque payloads; we use `Nat` (resp. the structured `News` record
  where the concrete generator matters).  The registry never inspects items.
* Python `list` operations are embedded over `List`: `append` is `++ [x]`,
  `list.remove` removes the first matching element and raises `ValueError`
  when the element is absent (modelled with `Except`).
* Exceptions are modelled with `Except` / explicit "raised" flags; a raised
  exception leaves previously mutated state in place (Python mutates queues
  in place) and aborts the remainder of the loop it escapes from.
* The worker thread's loop is modelled as a deterministic step function over
  a worker state, driven by one environment observation per tick: the value
  of the stop event at the top-of-loop check and the registry's queue count.
-/

set_option autoImplicit false

namespace Producer

/-- Messages that can land on a subscriber queue: either a real produced item
or the poison sentinel (`None` in the Python source, which is distinct from
every real item — real items are dict records). -/
inductive Msg where
  | item (payload : Nat)
  | poison
  deriving DecidableEq, Repr

/-! ## `ProducerBase.produce` at the abstract level (claim C1)

`produce` holds the mutex and calls `self._put(item, queue)` once for every
queue in `self.queues`, in list order.  At the `ProducerBase` level `_put` is
abstract; the observable behaviour of `produce` is the sequence of insertion
attempts it makes, each a pair (queue, item). -/

/-- The list of insertion attempts made by one `ProducerBase.produce(item)`
call when the registered queues are `queues`: one `_put(item, queue)` call per
registered queue, in registration order. -/
def produceAttempts (queues : List Nat) (item : Nat) : List (Nat × Nat) :=
  queues.map (fun q => (q, item))

/-! ## Registration (`add_queue` / `remove_queue` / `queue_count`) -/

/-- Python's `list.remove(x)`: remove the first occurrence of `x`, or raise
`ValueError` when `x` is not in the list.  `.error ()` models the raised
`ValueError`. -/
def pyListRemove (xs : List Nat) (x : Nat) : Except Unit (List Nat) :=
  match xs with
  | [] => .error ()
  | y :: ys =>
    if y = x then .ok ys
    else (pyListRemove ys x).map (fun rest => y :: rest)

/-- `ProducerBase.remove_queue(queue)` run against a registry whose queue list
is `qs`: returns the queue list after the call together with a flag telling
whether a `ValueError` escaped to the caller.  When the exception is raised
the list is untouched. -/
def remove_queue (qs : List Nat) (q : Nat) : List Nat × Bool :=
  match pyListRemove qs q with
  | .ok qs' => (qs', false)
  | .error _ => (qs, true)

/-- `ProducerBase.add_queue(queue)`: append to the queue list. -/
def add_queue (qs : List Nat) (q : Nat) : List Nat :=
  qs ++ [q]

/-- `ProducerBase.queue_count`: length of the queue list. -/
def queue_count (qs : List Nat) : Nat :=
  qs.length

end Producer

namespace Producer

/-! ## The concrete news generator (`NewsProducer.generate_news`, claim C10) -/

/-- The record returned by `NewsProducer.generate_news` (a Python dict with
fixed string keys). -/
structure News where
  content : String
  date : String
  headline : String
  icon : String
  source : String
  deriving DecidableEq, Repr

/-- Python's unary `+` on an integer: the identity.  The source writes
`++news_count`, which parses as two applications of unary plus, not as an
increment (Python has no `++` operator). -/
def unaryPlus (n : Nat) : Nat := n

/-- `NewsProducer.generate_news(news_count)`.  `today` stands for the wall
clock string `strftime('%Y/%m/%d')`, an external input.  The argument
`news_count` is a local parameter (Python ints are immutable and passed by
value), so the call cannot change the caller's counter. -/
def generate_news (today : String) (news_count : Nat) : News :=
  { content := "The content for the news story " ++
      toString (unaryPlus (unaryPlus news_count)) ++ "."
  , date := today
  , headline := "News story " ++ toString news_count
  , icon := ""
  , source := "Source " ++ toString news_count }

/-! ## Registry trace semantics (claims C4 and C6)

For delivery-order claims we track, for each registered queue, the list of
messages that have been inserted into it, in insertion order (a FIFO queue
read in order by its external drainer).  Queues are identified positionally:
the `j`-th registered queue is the `j`-th element of the state.  Every
operation acquires the registry mutex, so a run is a sequence of atomic
operations. -/

/-- One serialized registry operation: `add_queue` (registering a fresh empty
queue), `produce(item)`, or `poison()`. -/
inductive Op where
  | add
  | produce (payload : Nat)
  | poison
  deriving DecidableEq, Repr

/-- Effect of one registry operation on the registered queues' contents.
`add_queue` appends a new (empty) queue; `produce` inserts the item into every
currently registered queue (`for queue in self.queues: self._put(item, queue)`);
`poison` inserts the sentinel `self.get_poison` into every currently
registered queue. -/
def stepReg (s : List (List Msg)) (op : Op) : List (List Msg) :=
  match op with
  | .add => s ++ [[]]
  | .produce payload => s.map (fun q => q ++ [Msg.item payload])
  | .poison => s.map (fun q => q ++ [Msg.poison])

/-- Run a sequence of serialized registry operations from state `s`. -/
def execReg (ops : List Op) (s : List (List Msg)) : List (List Msg) :=
  ops.foldl stepReg s

/-- The messages a queue receives from a run of operations during all of which
it is registered: one message per `produce`/`poison`, in order. -/
def broadcastsOf (ops : List Op) : List Msg :=
  ops.filterMap (fun op =>
    match op with
    | .add => none
    | .produce payload => some (Msg.item payload)
    | .poison => some Msg.poison)

/-! ## `SimpleQueueProducer` with bounded queues (claim C2)

`SimpleQueueProducer._put` is `queue.put(item, self.block, self.timeout)`
with no exception handling.  For a bounded `Queue` of capacity `maxsize > 0`,
`put` with `block=False`, or with `block=True` and a finite `timeout` when no
consumer drains the queue within the timeout, raises `queue.Full` when the
queue is at capacity; otherwise it appends the item.  We model that failing
configuration: `maxsize = 0` means unbounded (never full), matching Python's
`Queue`. -/

/-- A subscriber `Queue.Queue`: a capacity (`0` = unbounded) and its current
contents in FIFO order. -/
structure SimpleQueue where
  maxsize : Nat
  contents : List Msg
  deriving DecidableEq, Repr

/-- `queue.put(item, block, timeout)` under a finite timeout (or
`block=False`) with no concurrent drain: raises `queue.Full` (modelled as
`.error ()`) iff the queue is bounded and at capacity, otherwise appends. -/
def SimpleQueue.put (q : SimpleQueue) (m : Msg) : Except Unit SimpleQueue :=
  if 0 < q.maxsize ∧ q.maxsize ≤ q.contents.length then .error ()
  else .ok { q with contents := q.contents ++ [m] }

/-- One `SimpleQueueProducer.produce(item)` call over registered queues `qs`:
iterate `_put` in registration order; the first raised `queue.Full` escapes
`_put` (which has no handler), aborts the `for` loop, and propagates out of
`produce` to the caller.  Returns the queues' states after the call (queues
already written to keep the item — Python mutates them in place; queues after
the failing one are untouched) and whether an exception escaped. -/
def produceRun (qs : List SimpleQueue) (m : Msg) : List SimpleQueue × Bool :=
  match qs with
  | [] => ([], false)
  | q :: rest =>
    match q.put m with
    | .ok q' =>
      let (rest', raised) := produceRun rest m
      (q' :: rest', raised)
    | .error _ => (q :: rest, true)

/-! ## The worker loop (`NewsProducer.run` / `join`, claims C5, C8, C9)

`run` is
```
while not self.stop_request.isSet() and self.news_count < 10:
    if self.queue_count > 0:
        self.news_count += 1
        item = self.generate_news(self.news_count)
        self.produce(item)
    sleep(2)
self.poison()
```
One *tick* is one evaluation of the `while` condition followed (when the
condition holds) by one loop body.  The environment supplies, per tick, the
value of `stop_request.isSet()` read by the condition and the `queue_count`
read by the body.  When the condition fails the worker leaves the loop and
issues the single `poison()` in that same tick. -/

/-- Observable worker events: a `produce` of the `n`-th item, or the final
`poison` broadcast. -/
inductive Ev where
  | produce (n : Nat)
  | poison
  deriving DecidableEq, Repr

/-- Worker thread state: the produced-count `news_count`, whether `run` has
left the `while` loop (and hence issued its `poison()` and returned), and the
trace of broadcast events so far. -/
structure Worker where
  news_count : Nat
  done : Bool
  events : List Ev
  deriving DecidableEq, Repr

/-- The initial worker state (`news_count = 0`, thread running, no events). -/
def Worker.init : Worker := ⟨0, false, []⟩

/-- One tick of `NewsProducer.run`, given the environment observation
`(stopSet, queueCount)` for this tick.  A terminated worker does nothing.
If the condition `not stopSet && news_count < 10` fails, the worker exits the
loop and performs its one `poison()`.  Otherwise, when at least one queue is
registered it increments `news_count` and produces item number `news_count`;
with no queues it only sleeps. -/
def tick (obs : Bool × Nat) (s : Worker) : Worker :=
  if s.done then s
  else if obs.1 ∨ 10 ≤ s.news_count then
    { s with done := true, events := s.events ++ [Ev.poison] }
  else if 0 < obs.2 then
    { s with news_count := s.news_count + 1
           , events := s.events ++ [Ev.produce (s.news_count + 1)] }
  else s

/-- Run the worker for the given per-tick environment observations. -/
def runTicks (obss : List (Bool × Nat)) (s : Worker) : Worker :=
  obss.foldl (fun s o => tick o s) s

/-- The `stop_request : Event` flag exposed to controllers of the worker. -/
structure WorkerCtl where
  stop_request : Bool
  deriving DecidableEq, Repr

/-- `NewsProducer.join(timeout)`: unconditionally `self.stop_request.set()`
first, then waits on the underlying thread (the wait itself has no effect on
the flag). -/
def NewsProducer.join (c : WorkerCtl) : WorkerCtl :=
  { c with stop_request := true }

/-- A productive tick: the stop event is unset and at least one queue is
registered.  (`tick` only reads the observation through `obs.1` and
`0 < obs.2`, so any such tick acts like `tick (false, 1)`.) -/
def prodTick : Worker → Worker :=
  tick (false, 1)

/-- The worker state after natural completion of a limit-10 run with a
subscriber registered on every tick: ten produced items then the single
poison broadcast. -/
def finalWorker : Worker :=
  ⟨10, true, (List.range 10).map (fun i => Ev.produce (i + 1)) ++ [Ev.poison]⟩

/-! ## Registration-only runs (claim C7) -/

/-- A registration call with no concurrent `produce`: `add_queue(q)` or
`remove_queue(q)`. -/
inductive RegOp where
  | add (q : Nat)
  | remove (q : Nat)
  deriving DecidableEq, Repr

/-- The number of `add_queue` calls in a call sequence. -/
def numAdds (ops : List RegOp) : Nat :=
  ops.countP (fun op =>
    match op with
    | .add _ => true
    | .remove _ => false)

/-- Run one registration call over (queue list, number of completed removes).
A `remove_queue` that raises `ValueError` leaves the list unchanged and is not
counted as completed. -/
def regStep (st : List Nat × Nat) (op : RegOp) : List Nat × Nat :=
  match op with
  | .add q => (add_queue st.1 q, st.2)
  | .remove q =>
    let r := remove_queue st.1 q
    (r.1, if r.2 then st.2 else st.2 + 1)

/-- Run a sequence of registration calls against a fresh registry, returning
the final queue list and the number of completed removes. -/
def runReg (ops : List RegOp) : List Nat × Nat :=
  ops.foldl regStep ([], 0)

/-- The number of `add` operations in a registry trace. -/
def numAddsOp (ops : List Op) : Nat :=
  ops.countP (fun op =>
    match op with
    | .add => true
    | _ => false)

/-! ## Helper lemmas -/

/-- `list.remove` raises `ValueError` exactly when the element is absent. -/
lemma pyListRemove_not_mem (qs : List Nat) (q : Nat) (h : q ∉ qs) :
    pyListRemove qs q = .error () := by
  induction qs with
  | nil => rfl
  | cons y ys ih =>
    have hy : ¬y = q := fun hyq => h (hyq ▸ List.mem_cons_self y ys)
    have hys : q ∉ ys := fun hm => h (List.mem_cons_of_mem y hm)
    simp [pyListRemove, hy, ih hys, Except.map]

/-- A completed `list.remove` removes exactly one element. -/
lemma pyListRemove_length {qs : List Nat} {q : Nat} {qs' : List Nat}
    (h : pyListRemove qs q = .ok qs') : qs'.length + 1 = qs.length := by
  induction qs generalizing qs' with
  | nil => simp [pyListRemove] at h
  | cons y ys ih =>
    by_cases hy : y = q
    · simp [pyListRemove, hy] at h
      simp [← h]
    · simp only [pyListRemove, if_neg hy] at h
      cases hrec : pyListRemove ys q with
      | error e => rw [hrec] at h; simp [Except.map] at h
      | ok rest =>
        rw [hrec] at h
        simp [Except.map] at h
        have := ih hrec
        simp [← h, this]

lemma runReg_invariant (ops : List RegOp) : ∀ (qs : List Nat) (k : Nat),
    ((ops.foldl regStep (qs, k)).1).length + (ops.foldl regStep (qs, k)).2
      = qs.length + k + numAdds ops := by
  induction ops with
  | nil => intro qs k; simp [numAdds]
  | cons op rest ih =>
    intro qs k
    cases op with
    | add q =>
      have h := ih (add_queue qs q) k
      simp only [List.foldl_cons, regStep] at h ⊢
      have hlen : (add_queue qs q).length = qs.length + 1 := by
        simp [add_queue]
      have hcnt : numAdds (RegOp.add q :: rest) = numAdds rest + 1 := by
        simp [numAdds, List.countP_cons]
      omega
    | remove q =>
      cases hp : pyListRemove qs q with
      | ok qs' =>
        have hstep : regStep (qs, k) (RegOp.remove q) = (qs', k + 1) := by
          simp [regStep, remove_queue, hp]
        have h := ih qs' (k + 1)
        have hlen := pyListRemove_length hp
        have hcnt : numAdds (RegOp.remove q :: rest) = numAdds rest := by
          simp [numAdds, List.countP_cons]
        simp only [List.foldl_cons, hstep]
        omega
      | error e =>
        have hstep : regStep (qs, k) (RegOp.remove q) = (qs, k) := by
          simp [regStep, remove_queue, hp]
        have h := ih qs k
        have hcnt : numAdds (RegOp.remove q :: rest) = numAdds rest := by
          simp [numAdds, List.countP_cons]
        simp only [List.foldl_cons, hstep]
        omega

lemma execReg_append (a b : List Op) (s : List (List Msg)) :
    execReg (a ++ b) s = execReg b (execReg a s) := by
  simp [execReg, List.foldl_append]

lemma length_execReg (ops : List Op) : ∀ s : List (List Msg),
    (execReg ops s).length = s.length + numAddsOp ops := by
  induction ops with
  | nil => intro s; simp [execReg, numAddsOp]
  | cons op rest ih =>
    intro s
    have hstep : execReg (op :: rest) s = execReg rest (stepReg s op) := rfl
    rw [hstep, ih (stepReg s op)]
    cases op
    all_goals simp [stepReg, numAddsOp, List.countP_cons]
    all_goals omega

lemma execReg_getElem (ops : List Op) : ∀ (s : List (List Msg)) (j : Nat),
    j < s.length →
    (execReg ops s)[j]? = (s[j]?).map (fun q => q ++ broadcastsOf ops) := by
  induction ops with
  | nil =>
    intro s j hj
    simp [execReg, broadcastsOf]
  | cons op rest ih =>
    intro s j hj
    have hstep : execReg (op :: rest) s = execReg rest (stepReg s op) := rfl
    cases op with
    | add =>
      have hj' : j < (stepReg s Op.add).length := by
        simp [stepReg]; omega
      rw [hstep, ih (stepReg s Op.add) j hj']
      have hget : (stepReg s Op.add)[j]? = s[j]? := by
        simp only [stepReg]
        exact List.getElem?_append_left hj
      rw [hget]
      have hb : broadcastsOf (Op.add :: rest) = broadcastsOf rest := by
        simp [broadcastsOf]
      rw [hb]
    | produce p =>
      have hj' : j < (stepReg s (Op.produce p)).length := by
        simp [stepReg]; omega
      rw [hstep, ih (stepReg s (Op.produce p)) j hj']
      simp only [stepReg, List.getElem?_map]
      cases s[j]? <;> simp [broadcastsOf]
    | poison =>
      have hj' : j < (stepReg s Op.poison).length := by
        simp [stepReg]; omega
      rw [hstep, ih (stepReg s Op.poison) j hj']
      simp only [stepReg, List.getElem?_map]
      cases s[j]? <;> simp [broadcastsOf]

lemma broadcastsOf_mem (post : List Op) (p : Nat)
    (h : Msg.item p ∈ broadcastsOf post) : Op.produce p ∈ post := by
  rcases List.mem_filterMap.mp h with ⟨op, hop, hf⟩
  cases op with
  | add => simp at hf
  | produce q =>
    have : q = p := by simpa using hf
    exact this ▸ hop
  | poison => simp at hf

lemma tick_done {s : Worker} (h : s.done = true) (o : Bool × Nat) :
    tick o s = s := by
  simp [tick, h]

lemma runTicks_done (obss : List (Bool × Nat)) {s : Worker}
    (h : s.done = true) : runTicks obss s = s := by
  induction obss with
  | nil => rfl
  | cons o rest ih =>
    show runTicks rest (tick o s) = s
    rw [tick_done h o]
    exact ih

lemma tick_env {o : Bool × Nat} (h1 : o.1 = false) (h2 : 0 < o.2)
    (s : Worker) : tick o s = prodTick s := by
  obtain ⟨b, k⟩ := o
  simp only at h1 h2
  subst h1
  simp [tick, prodTick, h2]

lemma runTicks_env (obss : List (Bool × Nat))
    (h : ∀ o ∈ obss, o.1 = false ∧ 0 < o.2) :
    ∀ s : Worker, runTicks obss s = prodTick^[obss.length] s := by
  induction obss with
  | nil => intro s; rfl
  | cons o rest ih =>
    intro s
    have ho := h o (List.mem_cons_self o rest)
    have hrest : ∀ x ∈ rest, x.1 = false ∧ 0 < x.2 :=
      fun x hx => h x (List.mem_cons_of_mem o hx)
    show runTicks rest (tick o s) = prodTick^[rest.length + 1] s
    rw [tick_env ho.1 ho.2, ih hrest, Function.iterate_succ_apply]

lemma prodTick_eleven : prodTick^[11] Worker.init = finalWorker := by
  decide

lemma prodTick_final : prodTick finalWorker = finalWorker := by
  decide

/-! ## Claim theorems -/

/-- C1: a single `produce(item)` call with exactly N queues registered makes
exactly N insertion attempts (`_put` calls), one per registered queue in
registration order, and every attempt passes the same item value. -/
theorem spec_C1 (queues : List Nat) (item : Nat) (j : Nat) :
    (produceAttempts queues item).length = queues.length ∧
    (produceAttempts queues item)[j]? = (queues[j]?).map (fun q => (q, item)) := by
  constructor
  · simp [produceAttempts]
  · simp [produceAttempts]

/-- C3: `remove_queue` on a queue that is not currently registered raises the
not-found error (`ValueError` from `list.remove`) to the caller, and the
registered-queue list is unchanged by the failed call. -/
theorem spec_C3 (qs : List Nat) (q : Nat) (h : q ∉ qs) :
    remove_queue qs q = (qs, true) := by
  unfold remove_queue
  rw [pyListRemove_not_mem qs q h]

/-- Witness for C3 at a concrete input: removing `3` from registry `[1, 2]`
raises and leaves the registry at `[1, 2]`. -/
theorem spec_C3_witness :
    (3 : Nat) ∉ [1, 2] ∧ remove_queue [1, 2] 3 = ([1, 2], true) :=
  ⟨by decide, spec_C3 [1, 2] 3 (by decide)⟩

/-- C4: one `poison()` call delivers the sentinel exactly once to every queue
registered at that call (the queue count is unchanged and each queue's
contents grow by exactly the one sentinel); there is no single-use guard, so
a second `poison()` delivers the sentinel again to every queue still
registered, leaving two sentinels on each. -/
theorem spec_C4 (s : List (List Msg)) (j : Nat) :
    (stepReg s Op.poison).length = s.length ∧
    (stepReg s Op.poison)[j]? = (s[j]?).map (fun q => q ++ [Msg.poison]) ∧
    (execReg [Op.poison, Op.poison] s)[j]? =
      (s[j]?).map (fun q => q ++ [Msg.poison, Msg.poison]) := by
  refine ⟨by simp [stepReg], by simp [stepReg], ?_⟩
  show (stepReg (stepReg s Op.poison) Op.poison)[j]? = _
  simp only [stepReg, List.getElem?_map]
  cases s[j]? <;> simp

/-- C7: after any sequence of `add_queue`/`remove_queue` calls with no
concurrent `produce`, `queue_count` equals the number of adds minus the
number of completed removes (a remove that raised `ValueError` is not
completed and does not change the registry). -/
theorem spec_C7 (ops : List RegOp) :
    (runReg ops).2 ≤ numAdds ops ∧
    queue_count (runReg ops).1 = numAdds ops - (runReg ops).2 := by
  have h := runReg_invariant ops [] 0
  simp only [List.length_nil, Nat.zero_add] at h
  unfold runReg queue_count
  constructor <;> omega

/-- C10: `generate_news(n)` embeds the same sequence number `n` in the
content, headline and source strings: the `++news_count` in the content is
two Python unary-plus operators (the identity on an int), not an increment,
so the content's number never exceeds the headline's; and since `news_count`
is a by-value int parameter of a static method the call cannot change the
caller's counter. -/
theorem spec_C10 (today : String) (n : Nat) :
    (generate_news today n).content
      = "The content for the news story " ++ toString n ++ "." ∧
    (generate_news today n).headline = "News story " ++ toString n ∧
    (generate_news today n).source = "Source " ++ toString n ∧
    (generate_news today n).date = today ∧
    unaryPlus (unaryPlus n) = n :=
  ⟨rfl, rfl, rfl, rfl, rfl⟩

/-- C6: in any serialized run `pre ++ [add] ++ post` from a fresh registry,
the queue registered by that `add` (sitting at index `numAddsOp pre`) ends up
containing exactly the broadcasts issued after its registration, in the order
the `produce`/`poison` calls were made (per-subscriber FIFO); in particular
every item it holds comes from a `produce` in `post`, so it never observes
any of the items produced before its registration. -/
theorem spec_C6 (pre post : List Op) :
    (execReg (pre ++ Op.add :: post) [])[numAddsOp pre]? =
      some (broadcastsOf post) ∧
    ∀ p : Nat, Msg.item p ∈ broadcastsOf post → Op.produce p ∈ post := by
  refine ⟨?_, fun p hp => broadcastsOf_mem post p hp⟩
  have hsplit : pre ++ Op.add :: post = (pre ++ [Op.add]) ++ post := by
    simp
  have h1 : execReg (pre ++ Op.add :: post) []
      = execReg post (stepReg (execReg pre []) Op.add) := by
    rw [hsplit, execReg_append, execReg_append]
    rfl
  have hlen : (execReg pre []).length = numAddsOp pre := by
    simpa using length_execReg pre []
  have hj : numAddsOp pre < (stepReg (execReg pre []) Op.add).length := by
    simp [stepReg]
    omega
  rw [h1, execReg_getElem post (stepReg (execReg pre []) Op.add)
    (numAddsOp pre) hj]
  have hget : (stepReg (execReg pre []) Op.add)[numAddsOp pre]? = some [] := by
    simp only [stepReg]
    rw [← hlen]
    exact List.getElem?_concat_length (execReg pre []) []
  rw [hget]
  simp

/-- C2 counterexample: registry `[bounded full queue, unbounded empty queue]`,
`produce` of item 1 under a finite put timeout.  The first insertion raises
`queue.Full`; the call reports the escaped exception (`true`) and the second
(healthy, unbounded) subscriber still has empty contents — the broadcast did
not continue to the remaining subscriber and the failure was not swallowed. -/
theorem spec_C2_counterexample :
    (produceRun [⟨1, [Msg.item 0]⟩, ⟨0, []⟩] (Msg.item 1)).2 = true ∧
    ((produceRun [⟨1, [Msg.item 0]⟩, ⟨0, []⟩] (Msg.item 1)).1)[1]? =
      some ⟨0, []⟩ := by
  constructor
  · rfl
  · rfl

/-- C2 (amended): when a subscriber's bounded insertion fails (times out)
during a broadcast, the `queue.Full` exception is not caught anywhere in
`_put`/`produce`: the queues before the failing one have received the item,
the failing queue and every remaining subscriber are left untouched (the
broadcast aborts, no retry), and the exception propagates out of `produce`
to the caller. -/
theorem spec_C2 (good : List SimpleQueue) (bad : SimpleQueue)
    (rest : List SimpleQueue) (m : Msg)
    (hgood : ∀ q ∈ good, ¬(0 < q.maxsize ∧ q.maxsize ≤ q.contents.length))
    (hbad : 0 < bad.maxsize ∧ bad.maxsize ≤ bad.contents.length) :
    produceRun (good ++ bad :: rest) m
      = (good.map (fun q => { q with contents := q.contents ++ [m] })
          ++ bad :: rest, true) := by
  induction good with
  | nil =>
    simp [produceRun, SimpleQueue.put, hbad]
  | cons q qs ih =>
    have hq := hgood q (List.mem_cons_self q qs)
    have hqs : ∀ x ∈ qs, ¬(0 < x.maxsize ∧ x.maxsize ≤ x.contents.length) :=
      fun x hx => hgood x (List.mem_cons_of_mem q hx)
    have hput : q.put m = .ok { q with contents := q.contents ++ [m] } := by
      simp [SimpleQueue.put, hq]
    show produceRun (q :: (qs ++ bad :: rest)) m = _
    simp only [produceRun, hput, ih hqs]
    simp

/-- Witness for C2 (amended) at a concrete input: one healthy unbounded queue
before a full bounded queue, one untouched queue after it. -/
theorem spec_C2_witness :
    produceRun [⟨0, []⟩, ⟨1, [Msg.item 0]⟩, ⟨0, []⟩] (Msg.item 1)
      = ([⟨0, [Msg.item 1]⟩, ⟨1, [Msg.item 0]⟩, ⟨0, []⟩], true) :=
  spec_C2 [⟨0, []⟩] ⟨1, [Msg.item 0]⟩ [⟨0, []⟩] (Msg.item 1)
    (by decide) (by decide)

/-- C5: a worker whose environment never sets the stop event and always has
at least one registered subscriber, run for at least 11 ticks, reaches
produced-count exactly 10, its event trace is the ten produces (items 1..10)
followed by the single poison broadcast, and in particular exactly one poison
broadcast occurs with no produce after it. -/
theorem spec_C5 (obss : List (Bool × Nat)) (hlen : 11 ≤ obss.length)
    (henv : ∀ o ∈ obss, o.1 = false ∧ 0 < o.2) :
    (runTicks obss Worker.init).news_count = 10 ∧
    (runTicks obss Worker.init).events
      = (List.range 10).map (fun i => Ev.produce (i + 1)) ++ [Ev.poison] ∧
    (runTicks obss Worker.init).events.count Ev.poison = 1 := by
  have h1 := runTicks_env obss henv Worker.init
  obtain ⟨k, hk⟩ : ∃ k, obss.length = k + 11 := ⟨obss.length - 11, by omega⟩
  have h2 : prodTick^[obss.length] Worker.init = finalWorker := by
    rw [hk, Function.iterate_add_apply, prodTick_eleven]
    exact Function.iterate_fixed prodTick_final k
  rw [h1, h2]
  exact ⟨rfl, rfl, by decide⟩

/-- Witness for C5: an 11-tick run with the stop event never set and one
registered subscriber per tick. -/
theorem spec_C5_witness :
    (runTicks (List.replicate 11 ((false : Bool), (1 : Nat)))
        Worker.init).news_count = 10 ∧
    (runTicks (List.replicate 11 ((false : Bool), (1 : Nat)))
        Worker.init).events
      = (List.range 10).map (fun i => Ev.produce (i + 1)) ++ [Ev.poison] ∧
    (runTicks (List.replicate 11 ((false : Bool), (1 : Nat)))
        Worker.init).events.count Ev.poison = 1 :=
  spec_C5 (List.replicate 11 (false, 1)) (by decide) (by decide)

/-- C8: if the stop event is set after the worker has produced 2 items (two
productive ticks, then a tick whose condition check observes the stop
request), the worker exits the loop at that next tick boundary: produced
count stays 2, the single poison broadcast is issued, and the worker is
terminated — all later ticks leave it unchanged regardless of the
environment. -/
theorem spec_C8 (q1 q2 q3 : Nat) (rest : List (Bool × Nat))
    (h1 : 0 < q1) (h2 : 0 < q2) :
    runTicks ((false, q1) :: (false, q2) :: (true, q3) :: rest) Worker.init
      = ⟨2, true, [Ev.produce 1, Ev.produce 2, Ev.poison]⟩ := by
  have t1 : tick (false, q1) Worker.init = ⟨1, false, [Ev.produce 1]⟩ := by
    simp [tick, Worker.init, h1]
  have t2 : tick (false, q2) ⟨1, false, [Ev.produce 1]⟩
      = ⟨2, false, [Ev.produce 1, Ev.produce 2]⟩ := by
    simp [tick, h2]
  have t3 : tick (true, q3) ⟨2, false, [Ev.produce 1, Ev.produce 2]⟩
      = ⟨2, true, [Ev.produce 1, Ev.produce 2, Ev.poison]⟩ := by
    simp [tick]
  show runTicks rest
      (tick (true, q3) (tick (false, q2) (tick (false, q1) Worker.init))) = _
  rw [t1, t2, t3]
  exact runTicks_done rest rfl

/-- Witness for C8: a concrete 3-tick schedule (two productive ticks, then
the stop event is observed set). -/
theorem spec_C8_witness :
    runTicks [(false, 1), (false, 1), (true, 0)] Worker.init
      = ⟨2, true, [Ev.produce 1, Ev.produce 2, Ev.poison]⟩ :=
  spec_C8 1 1 0 [] (by decide) (by decide)

/-- C9: `join()` unconditionally sets the stop flag itself before waiting —
there is no way to wait for natural completion without requesting a stop —
and once the stop flag is observed at a tick boundary the worker exits the
loop and poisons regardless of the produced count (in particular even when
it has not reached 10) and of how many queues are registered. -/
theorem spec_C9 (c : WorkerCtl) (qc n : Nat) (evs : List Ev) :
    (NewsProducer.join c).stop_request = true ∧
    tick (true, qc) ⟨n, false, evs⟩ = ⟨n, true, evs ++ [Ev.poison]⟩ := by
  constructor
  · rfl
  · simp [tick]

end Producer
